import Mathlib

/-!
Verification of the hand-detection pipeline of the `python-game` repository.

The development shallowly embeds the pure decision logic of
`simple_detection.py` (class `SimpleHandDetector`), the finger-direction
estimation of `finger_pointer_game.py` (`process_hand_tracking`), the
fallback fingertip selection of `platformer_game.py`
(`_detect_hand_orientation`), and the orientation smoothing of
`src/hand_orientation_detector.py` (class `HandOrientationDetector`).

OpenCV primitives (moments, contour area, convex hull, convexity defects,
background subtraction, morphology) are opaque library calls; their outputs
are modelled as record fields or abstract operation parameters, while every
decision the repository's own code makes on those outputs is embedded
faithfully.  Python float arithmetic is modelled as exact real (or rational)
arithmetic; pixel coordinates are integers.
-/

namespace PyHandGame

/-- A pixel point `(x, y)` as stored in an OpenCV contour. -/
abbrev Point : Type := ℤ × ℤ

/-- Squared Euclidean distance between two points.  The Python sources compute
`math.sqrt((p[0]-q[0])**2 + (p[1]-q[1])**2)`; we keep the radicand, which is
exact, and take `Real.sqrt` at the statement level where the actual distance
is needed. -/
def sqDist (p q : Point) : ℤ := (p.1 - q.1) ^ 2 + (p.2 - q.2) ^ 2

/-- The radicand of the side `c` as `finger_pointer_game.py` lines 277-279
actually computes it: `(end[0] - far[0]) ** 2 + (end[1] - far[0]) ** 2` —
note that the second term subtracts `far[0]` (the x-coordinate), not
`far[1]`. -/
def sqDistFpgC (e f : Point) : ℤ := (e.1 - f.1) ^ 2 + (e.2 - f.1) ^ 2

theorem sqDist_nonneg (p q : Point) : 0 ≤ sqDist p q := by
  unfold sqDist; positivity

/-- Gesture labels produced by `SimpleHandDetector.detect_gesture`. -/
inductive Gesture where
  | unknown
  | closed_fist
  | pointing
  | victory
  | open_palm
  | thumbs_up
deriving DecidableEq, Repr

/-- One row `defects[i, 0] = (s, e, f, d)` of `cv2.convexityDefects`:
indices of the start, end and farthest contour points, and the defect
depth. -/
structure Defect where
  s : ℕ
  e : ℕ
  f : ℕ
  d : ℕ
deriving DecidableEq, Repr

/-- Outcome of the guarded call `cv2.convexityDefects(contour, hull)`:
the call can raise (caught by the `try`/`except`), return `None`, or return
an array of defects. -/
inductive DefectsResult where
  | raised
  | noDefects
  | found (ds : List Defect)
deriving DecidableEq, Repr

/-- The data `SimpleHandDetector` reads off a single OpenCV contour.  The
fields record the outputs of the opaque `cv2` calls made on the contour:
`cv2.contourArea`, `cv2.moments`, `len(cv2.convexHull(·, returnPoints=False))`,
`cv2.convexityDefects`, and the area of the point-returning hull. -/
structure Contour where
  points : List Point
  area : ℚ
  m00 : ℚ
  m10 : ℚ
  m01 : ℚ
  hullSize : ℕ
  defects : DefectsResult
  hullArea : ℚ
deriving DecidableEq

/-- The per-defect finger-gap test of `simple_detection.py` lines 218-230, at
the level of squared distances.  With `da = a²`, `db = b²`, `dc = c²`:
`math.acos((b**2 + c**2 - a**2) / (2*b*c))` raises (and the defect is
skipped, `continue`) exactly when the divisor is zero (`db = 0` or `dc = 0`)
or the ratio falls outside `[-1, 1]` (i.e. `(db + dc - da)² > 4·db·dc`);
otherwise the defect counts when the angle is at most `π/2`, i.e. when the
ratio is nonnegative, i.e. `da ≤ db + dc`.  The equivalence with the
`acos` formulation is proved in `isFingerGap_iff_arccos`. -/
def isFingerGap (s e f : Point) : Bool :=
  let da := sqDist e s
  let db := sqDist f s
  let dc := sqDist e f
  decide (db ≠ 0) && decide (dc ≠ 0) &&
    decide ((db + dc - da) ^ 2 ≤ 4 * db * dc) && decide (da ≤ db + dc)

/-- Look up the start, end and far points of a defect in the contour's point
list (`contour[s][0]` etc.; indices produced by `cv2.convexityDefects` are
always in range, so a default is harmless). -/
def defectPts (pts : List Point) (dft : Defect) : Point × Point × Point :=
  (pts.getD dft.s (0, 0), pts.getD dft.e (0, 0), pts.getD dft.f (0, 0))

/-- The finger-gap count of the loop in `detect_gesture`
(`simple_detection.py` lines 211-230). -/
def countGaps (pts : List Point) (ds : List Defect) : ℕ :=
  (ds.filter (fun dft =>
    let p := defectPts pts dft
    isFingerGap p.1 p.2.1 p.2.2)).length

/-- `SimpleHandDetector.detect_gesture` (`simple_detection.py` lines
181-250), as a pure function from the contour data to the gesture label it
stores in `self.current_gesture`. -/
def detect_gesture (c : Contour) : Gesture :=
  if c.hullSize < 3 then .unknown
  else
    match c.defects with
    | .raised => .unknown
    | .noDefects => .closed_fist
    | .found ds =>
      let finger_count := countGaps c.points ds
      if finger_count = 0 then .closed_fist
      else if finger_count = 1 then .pointing
      else if finger_count = 2 then .victory
      else if 4 ≤ finger_count then .open_palm
      else if 9 / 10 < c.area / c.hullArea then .thumbs_up
      else .unknown

/-- The claim-side label map, written from the spec's words: gap count
0→closed_fist, 1→pointing, 2→victory, ≥4→open_palm; for exactly 3,
thumbs_up when solidity > 0.9 and unknown otherwise. -/
def spec_gap_label (n : ℕ) (solidity : ℚ) : Gesture :=
  if n = 0 then .closed_fist
  else if n = 1 then .pointing
  else if n = 2 then .victory
  else if 4 ≤ n then .open_palm
  else if 9 / 10 < solidity then .thumbs_up
  else .unknown

/-- `self.min_contour_area = 3000` (`simple_detection.py` line 35). -/
def min_contour_area : ℚ := 3000

/-- `self.max_positions = 5` (`simple_detection.py` line 21). -/
def max_positions : ℕ := 5

/-- Python's `max(valid_contours, key=cv2.contourArea)`: the first element
attaining the maximal area (later elements replace the best only when
strictly larger). -/
def maxByArea (v : Contour) (vs : List Contour) : Contour :=
  vs.foldl (fun best x => if best.area < x.area then x else best) v

/-- Contour selection of `process_frame` (`simple_detection.py` lines
120-134): keep the contours whose area strictly exceeds
`min_contour_area`, and pick the largest of them; `none` when no contour
qualifies (also covering the `not contours` early return). -/
def selectContour (cs : List Contour) : Option Contour :=
  match cs.filter (fun c => min_contour_area < c.area) with
  | [] => none
  | v :: vs => some (maxByArea v vs)

/-- Python `int()` applied to a (real) quotient truncates toward zero; on a
rational this is T-division of the numerator by the denominator. -/
def pyInt (q : ℚ) : ℤ := q.num.tdiv q.den

/-- The mutable detector state that the contour-analysis part of
`process_frame` reads and writes: `self.prev_positions` and
`self.current_gesture`. -/
structure DetState where
  prev_positions : List Point
  current_gesture : Gesture
deriving DecidableEq

/-- The raw centroid `(cx, cy) = (int(M["m10"]/M["m00"]), int(M["m01"]/M["m00"]))`
(`simple_detection.py` lines 142-144). -/
def rawCentroid (c : Contour) : Point :=
  (pyInt (c.m10 / c.m00), pyInt (c.m01 / c.m00))

/-- `self.prev_positions.append(hand_center)` followed by
`if len(self.prev_positions) > self.max_positions: self.prev_positions.pop(0)`
(`simple_detection.py` lines 147-149). -/
def pushHistory (hist : List Point) (p : Point) : List Point :=
  if max_positions < (hist ++ [p]).length then (hist ++ [p]).drop 1 else hist ++ [p]

/-- The smoothed centre: componentwise Python floor division `//` of the
coordinate sums by the number of history entries (`simple_detection.py`
lines 152-158). -/
def smoothCenter (hist : List Point) : Point :=
  (((hist.map Prod.fst).sum).fdiv hist.length,
   ((hist.map Prod.snd).sum).fdiv hist.length)

/-- The contour-analysis half of `SimpleHandDetector.process_frame`
(`simple_detection.py` lines 120-179), from the list of contours found in
the mask to the returned `(hand_center, contour)` pair and the updated
state.  On every failure path (`no contours`, no valid contour,
`M["m00"] == 0`) the state is returned untouched and the centre and contour
are `None`. -/
def process_frame (st : DetState) (contours : List Contour) :
    Option Point × Option Contour × DetState :=
  match selectContour contours with
  | none => (none, none, st)
  | some c =>
    if c.m00 ≠ 0 then
      let hist := pushHistory st.prev_positions (rawCentroid c)
      (some (smoothCenter hist), some c,
        { prev_positions := hist, current_gesture := detect_gesture c })
    else (none, none, st)

/-- Cauchy–Schwarz for the three squared side lengths of the defect
triangle: the `acos` argument of the finger-gap test never leaves
`[-1, 1]` as long as its divisor is nonzero. -/
theorem gap_cauchy (s e f : Point) :
    (sqDist f s + sqDist e f - sqDist e s) ^ 2 ≤ 4 * sqDist f s * sqDist e f := by
  unfold sqDist
  nlinarith [sq_nonneg ((f.1 - s.1) * (e.2 - f.2) - (f.2 - s.2) * (e.1 - f.1)),
    sq_nonneg ((f.1 - s.1) * (e.1 - f.1) + (f.2 - s.2) * (e.2 - f.2))]

/-- The integer-level finger-gap test agrees with the source's law-of-cosines
formulation: a defect counts exactly when neither `b` nor `c` degenerates to
zero and `acos((b² + c² - a²) / (2bc)) ≤ π/2`, with
`a = |end-start|`, `b = |far-start|`, `c = |end-far|`. -/
theorem isFingerGap_iff_arccos (s e f : Point) :
    isFingerGap s e f = true ↔
      sqDist f s ≠ 0 ∧ sqDist e f ≠ 0 ∧
        Real.arccos ((Real.sqrt (sqDist f s) ^ 2 + Real.sqrt (sqDist e f) ^ 2
            - Real.sqrt (sqDist e s) ^ 2) /
          (2 * Real.sqrt (sqDist f s) * Real.sqrt (sqDist e f))) ≤ Real.pi / 2 := by
  have hb : (0 : ℝ) ≤ (sqDist f s : ℝ) := by exact_mod_cast sqDist_nonneg f s
  have hc : (0 : ℝ) ≤ (sqDist e f : ℝ) := by exact_mod_cast sqDist_nonneg e f
  have ha : (0 : ℝ) ≤ (sqDist e s : ℝ) := by exact_mod_cast sqDist_nonneg e s
  rw [Real.sq_sqrt hb, Real.sq_sqrt hc, Real.sq_sqrt ha,
    Real.arccos_le_pi_div_two]
  simp only [isFingerGap, Bool.and_eq_true, decide_eq_true_eq]
  constructor
  · rintro ⟨⟨⟨hb0, hc0⟩, -⟩, hle⟩
    refine ⟨hb0, hc0, ?_⟩
    have hnum : (0 : ℝ) ≤ (sqDist f s : ℝ) + (sqDist e f : ℝ) - (sqDist e s : ℝ) := by
      have : (0 : ℤ) ≤ sqDist f s + sqDist e f - sqDist e s := by omega
      exact_mod_cast this
    have hden : (0 : ℝ) ≤ 2 * Real.sqrt (sqDist f s) * Real.sqrt (sqDist e f) := by
      positivity
    exact div_nonneg hnum hden
  · rintro ⟨hb0, hc0, hratio⟩
    refine ⟨⟨⟨hb0, hc0⟩, gap_cauchy s e f⟩, ?_⟩
    have hbpos : (0 : ℝ) < Real.sqrt (sqDist f s) := by
      apply Real.sqrt_pos.mpr
      have : (0 : ℤ) < sqDist f s := lt_of_le_of_ne (sqDist_nonneg f s) (Ne.symm hb0)
      exact_mod_cast this
    have hcpos : (0 : ℝ) < Real.sqrt (sqDist e f) := by
      apply Real.sqrt_pos.mpr
      have : (0 : ℤ) < sqDist e f := lt_of_le_of_ne (sqDist_nonneg e f) (Ne.symm hc0)
      exact_mod_cast this
    have hden : (0 : ℝ) < 2 * Real.sqrt (sqDist f s) * Real.sqrt (sqDist e f) := by
      positivity
    have hnum : (0 : ℝ) ≤ (sqDist f s : ℝ) + (sqDist e f : ℝ) - (sqDist e s : ℝ) := by
      have := (div_nonneg_iff.mp hratio).resolve_right (fun h => absurd h.2 (not_le.mpr hden))
      exact this.1
    have : (0 : ℤ) ≤ sqDist f s + sqDist e f - sqDist e s := by exact_mod_cast hnum
    omega

/-- C3: the gesture classifier maps the count of qualifying finger gaps
(defect far-vertex angle at most `π/2`, by the law of cosines) to a label as
0→closed_fist, 1→pointing, 2→victory, ≥4→open_palm, and for exactly 3 gaps
returns thumbs_up when solidity = contourArea / hullArea > 0.9 and unknown
otherwise; a hull with fewer than 3 points or a raising defect computation
yields unknown, and a `None` defect set (as well as an empty one, via gap
count 0) yields closed_fist. -/
theorem gesture_classifier_spec (c : Contour) :
    (c.hullSize < 3 → detect_gesture c = .unknown) ∧
    (3 ≤ c.hullSize → c.defects = .raised → detect_gesture c = .unknown) ∧
    (3 ≤ c.hullSize → c.defects = .noDefects → detect_gesture c = .closed_fist) ∧
    (∀ ds, 3 ≤ c.hullSize → c.defects = .found ds →
      detect_gesture c = spec_gap_label (countGaps c.points ds) (c.area / c.hullArea)) ∧
    (∀ ds, 3 ≤ c.hullSize → c.defects = .found ds → countGaps c.points ds = 0 →
      detect_gesture c = .closed_fist) ∧
    (∀ s e f : Point, isFingerGap s e f = true ↔
      sqDist f s ≠ 0 ∧ sqDist e f ≠ 0 ∧
        Real.arccos ((Real.sqrt (sqDist f s) ^ 2 + Real.sqrt (sqDist e f) ^ 2
            - Real.sqrt (sqDist e s) ^ 2) /
          (2 * Real.sqrt (sqDist f s) * Real.sqrt (sqDist e f))) ≤ Real.pi / 2) := by
  refine ⟨?_, ?_, ?_, ?_, ?_, fun s e f => isFingerGap_iff_arccos s e f⟩
  · intro h; simp [detect_gesture, h]
  · intro h3 hd; simp [detect_gesture, Nat.not_lt.mpr h3, hd]
  · intro h3 hd; simp [detect_gesture, Nat.not_lt.mpr h3, hd]
  · intro ds h3 hd
    simp only [detect_gesture, spec_gap_label, Nat.not_lt.mpr h3, if_false, hd]
  · intro ds h3 hd h0
    simp [detect_gesture, Nat.not_lt.mpr h3, hd, h0]

/-- A concrete contour exercising the classifier: a single defect whose
far-vertex angle is acute, hence one finger gap and the label `pointing`. -/
def cWitness : Contour :=
  { points := [(0, 0), (5, 0), (5, 5)], area := 4000, m00 := 1, m10 := 0,
    m01 := 0, hullSize := 3, defects := .found [⟨0, 1, 2, 0⟩],
    hullArea := 4000 }

/-- Witness for `gesture_classifier_spec` at the concrete contour
`cWitness`. -/
theorem gesture_classifier_spec_witness :
    detect_gesture cWitness = Gesture.pointing ∧
      sqDist ((5, 5) : Point) ((0, 0) : Point) ≠ 0 := by
  have h := gesture_classifier_spec cWitness
  constructor
  · have hmap := h.2.2.2.1 [⟨0, 1, 2, 0⟩] (by decide) rfl
    rw [hmap]; decide
  · exact ((h.2.2.2.2.2 (0, 0) (5, 0) (5, 5)).mp (by decide)).1

/-- C1 (code bug): at the defect `(start, end, far) = ((2,0), (3,1), (2,1))`,
the fingertip estimator of `process_hand_tracking` squares `end[1] - far[0]`
in its side `c` (line 278 of `finger_pointer_game.py`), so its squared `c`
differs from `|end - far|²` (2 versus 1) and the angle it computes is
strictly below `π/2`, whereas the law-of-cosines angle with `c = |end - far|`
required by the claim equals `π/2`. -/
theorem fpg_angle_formula_bug :
    sqDistFpgC ((3, 1) : Point) ((2, 1) : Point) ≠ sqDist ((3, 1) : Point) ((2, 1) : Point) ∧
    Real.arccos ((Real.sqrt (sqDist ((2, 1) : Point) ((2, 0) : Point)) ^ 2
          + Real.sqrt (sqDistFpgC ((3, 1) : Point) ((2, 1) : Point)) ^ 2
          - Real.sqrt (sqDist ((3, 1) : Point) ((2, 0) : Point)) ^ 2) /
        (2 * Real.sqrt (sqDist ((2, 1) : Point) ((2, 0) : Point))
          * Real.sqrt (sqDistFpgC ((3, 1) : Point) ((2, 1) : Point))))
      < Real.pi / 2 ∧
    Real.arccos ((Real.sqrt (sqDist ((2, 1) : Point) ((2, 0) : Point)) ^ 2
          + Real.sqrt (sqDist ((3, 1) : Point) ((2, 1) : Point)) ^ 2
          - Real.sqrt (sqDist ((3, 1) : Point) ((2, 0) : Point)) ^ 2) /
        (2 * Real.sqrt (sqDist ((2, 1) : Point) ((2, 0) : Point))
          * Real.sqrt (sqDist ((3, 1) : Point) ((2, 1) : Point))))
      = Real.pi / 2 := by
  have e1 : ((sqDist ((2, 1) : Point) ((2, 0) : Point) : ℤ) : ℝ) = 1 := by
    norm_num [sqDist]
  have e2 : ((sqDistFpgC ((3, 1) : Point) ((2, 1) : Point) : ℤ) : ℝ) = 2 := by
    norm_num [sqDistFpgC]
  have e3 : ((sqDist ((3, 1) : Point) ((2, 1) : Point) : ℤ) : ℝ) = 1 := by
    norm_num [sqDist]
  have e4 : ((sqDist ((3, 1) : Point) ((2, 0) : Point) : ℤ) : ℝ) = 2 := by
    norm_num [sqDist]
  refine ⟨by decide, ?_, ?_⟩
  · rw [e1, e2, e4, Real.sqrt_one,
      Real.sq_sqrt (by norm_num : (0 : ℝ) ≤ 2), Real.arccos_lt_pi_div_two]
    have h2 : (0 : ℝ) < Real.sqrt 2 := Real.sqrt_pos.mpr (by norm_num)
    rw [one_pow]
    have hnum : (1 : ℝ) + 2 - 2 = 1 := by norm_num
    rw [hnum]
    positivity
  · rw [e1, e3, e4, Real.sqrt_one,
      Real.sq_sqrt (by norm_num : (0 : ℝ) ≤ 2), one_pow]
    have hnum : (1 : ℝ) + 1 - 2 = 0 := by norm_num
    rw [hnum, zero_div, Real.arccos_zero]

theorem maxByArea_mem : ∀ (vs : List Contour) (v : Contour), maxByArea v vs ∈ v :: vs := by
  intro vs
  induction vs with
  | nil => intro v; simp [maxByArea]
  | cons x xs ih =>
    intro v
    have hstep : maxByArea v (x :: xs) = maxByArea (if v.area < x.area then x else v) xs := rfl
    rw [hstep]
    rcases List.mem_cons.mp (ih (if v.area < x.area then x else v)) with h1 | h1
    · rw [h1]; split
      · exact List.mem_cons_of_mem _ (List.mem_cons_self _ _)
      · exact List.mem_cons_self _ _
    · exact List.mem_cons_of_mem _ (List.mem_cons_of_mem _ h1)

theorem le_maxByArea : ∀ (vs : List Contour) (v d : Contour), d ∈ v :: vs →
    d.area ≤ (maxByArea v vs).area := by
  intro vs
  induction vs with
  | nil =>
    intro v d hd
    rcases List.mem_cons.mp hd with rfl | h
    · exact le_refl _
    · simp at h
  | cons x xs ih =>
    intro v d hd
    have hstep : maxByArea v (x :: xs) = maxByArea (if v.area < x.area then x else v) xs := rfl
    rw [hstep]
    have hv : v.area ≤ (if v.area < x.area then x else v).area := by
      split
      · exact le_of_lt ‹_›
      · exact le_refl _
    have hx : x.area ≤ (if v.area < x.area then x else v).area := by
      split
      · exact le_refl _
      · exact not_lt.mp ‹_›
    rcases List.mem_cons.mp hd with rfl | hd'
    · exact le_trans hv (ih _ _ (List.mem_cons_self _ _))
    rcases List.mem_cons.mp hd' with rfl | hd''
    · exact le_trans hx (ih _ _ (List.mem_cons_self _ _))
    · exact ih _ d (List.mem_cons_of_mem _ hd'')

/-- C4 (amended): a contour counts as a valid hand exactly when its area
strictly exceeds `min_contour_area` (3000): the frame yields `NotFound`
precisely when every contour's area is at most the threshold (so a contour
whose area equals the threshold is discarded), the selected contour when one
exists is a member of the list with maximal area strictly above the
threshold, and a `NotFound` selection leaves the per-frame result with null
centre and contour and the state untouched. -/
theorem contour_selection_spec (cs : List Contour) (st : DetState) :
    (selectContour cs = none ↔ ∀ c ∈ cs, c.area ≤ min_contour_area) ∧
    (∀ c, selectContour cs = some c →
      c ∈ cs ∧ min_contour_area < c.area ∧ ∀ d ∈ cs, d.area ≤ c.area) ∧
    (selectContour cs = none → process_frame st cs = (none, none, st)) := by
  refine ⟨?_, ?_, ?_⟩
  · constructor
    · intro hnone c hc
      by_contra hlt
      have hmem : c ∈ cs.filter (fun c => min_contour_area < c.area) :=
        List.mem_filter.mpr ⟨hc, by simpa using not_le.mp hlt⟩
      unfold selectContour at hnone
      rcases hf : cs.filter (fun c => min_contour_area < c.area) with _ | ⟨v, vs⟩
      · rw [hf] at hmem; simp at hmem
      · rw [hf] at hnone; simp at hnone
    · intro hall
      unfold selectContour
      rcases hf : cs.filter (fun c => min_contour_area < c.area) with _ | ⟨v, vs⟩
      · rw [hf]
      · exfalso
        have hv : v ∈ cs.filter (fun c => min_contour_area < c.area) := by
          rw [hf]; exact List.mem_cons_self _ _
        rcases List.mem_filter.mp hv with ⟨hvcs, hvp⟩
        exact absurd (hall v hvcs) (not_le.mpr (by simpa using hvp))
  · intro c hc
    unfold selectContour at hc
    rcases hf : cs.filter (fun c => min_contour_area < c.area) with _ | ⟨v, vs⟩
    · rw [hf] at hc; simp at hc
    · rw [hf] at hc
      have hc' : maxByArea v vs = c := by simpa using hc
      have hmem : c ∈ v :: vs := hc' ▸ maxByArea_mem vs v
      have hmemf : c ∈ cs.filter (fun c => min_contour_area < c.area) := by
        rw [hf]; exact hmem
      rcases List.mem_filter.mp hmemf with ⟨hccs, hcp⟩
      refine ⟨hccs, by simpa using hcp, ?_⟩
      intro d hd
      by_cases hdp : min_contour_area < d.area
      · have hdf : d ∈ cs.filter (fun c => min_contour_area < c.area) :=
          List.mem_filter.mpr ⟨hd, by simpa using hdp⟩
        rw [hf] at hdf
        rw [← hc']
        exact le_maxByArea vs v d hdf
      · exact le_trans (not_lt.mp hdp) (le_of_lt (by simpa using hcp))
  · intro hnone
    unfold process_frame
    rw [hnone]

/-- A contour whose area is exactly `min_contour_area`. -/
def contour3000 : Contour :=
  { points := [], area := 3000, m00 := 1, m10 := 0, m01 := 0,
    hullSize := 0, defects := .noDefects, hullArea := 1 }

/-- C4 counterexample: a frame with a single contour of area exactly
`MIN_CONTOUR_AREA` is discarded and yields `NotFound` (null centre and
contour), contradicting the claim that an area-equal contour is kept. -/
theorem contour_at_threshold_discarded :
    contour3000.area = min_contour_area ∧
    selectContour [contour3000] = none ∧
    process_frame { prev_positions := [], current_gesture := .unknown } [contour3000] =
      (none, none, { prev_positions := [], current_gesture := .unknown }) := by
  decide

/-- Witness for `contour_selection_spec`: a contour of area 4000 in a
singleton frame is selected, lies in the list, and exceeds the threshold. -/
def cA : Contour :=
  { points := [], area := 4000, m00 := 4000, m10 := 0, m01 := 0,
    hullSize := 0, defects := .noDefects, hullArea := 1 }

theorem contour_selection_spec_witness :
    cA ∈ [cA] ∧ min_contour_area < cA.area ∧ ∀ d ∈ [cA], d.area ≤ cA.area := by
  have h := (contour_selection_spec [cA]
    { prev_positions := [], current_gesture := .unknown }).2.1 cA (by decide)
  exact ⟨h.1, h.2.1, h.2.2⟩

theorem process_frame_contour_some {st : DetState} {cs : List Contour} {c : Contour}
    (h : (process_frame st cs).2.1 = some c) :
    (process_frame st cs).2.2.current_gesture = detect_gesture c := by
  unfold process_frame at h ⊢
  rcases hsel : selectContour cs with _ | c'
  · rw [hsel] at h; simp at h
  · rw [hsel] at h
    by_cases hm : c'.m00 = 0
    · simp [hm] at h
    · simp only [hm, ne_eq, not_false_eq_true, if_true] at h ⊢
      have : c' = c := by simpa using h
      rw [← this]

theorem process_frame_notfound {st : DetState} {cs : List Contour}
    (h : (process_frame st cs).1 = none) :
    (process_frame st cs).2.2 = st := by
  unfold process_frame at h ⊢
  rcases hsel : selectContour cs with _ | c'
  · rfl
  · rw [hsel] at h
    by_cases hm : c'.m00 = 0
    · simp [hm]
    · simp [hm] at h

/-- C9: the reported gesture depends only on the current frame's contour:
any two processing histories whose current frames yield the same (non-null)
contour report the same gesture, namely the one recomputed from that
contour, and a frame on which no hand was found leaves the stored gesture
(and hence everything it can influence later) unchanged. -/
theorem gesture_no_cross_frame_memory (st₁ st₂ : DetState)
    (cs₁ cs₂ : List Contour) (c : Contour)
    (h₁ : (process_frame st₁ cs₁).2.1 = some c)
    (h₂ : (process_frame st₂ cs₂).2.1 = some c) :
    (process_frame st₁ cs₁).2.2.current_gesture =
      (process_frame st₂ cs₂).2.2.current_gesture ∧
    (process_frame st₁ cs₁).2.2.current_gesture = detect_gesture c ∧
    (∀ (st : DetState) (cs : List Contour),
      (process_frame st cs).2.1 = (none : Option Contour) →
      (process_frame st cs).2.2.current_gesture = st.current_gesture) := by
  refine ⟨?_, process_frame_contour_some h₁, ?_⟩
  · rw [process_frame_contour_some h₁, process_frame_contour_some h₂]
  · intro st cs h
    have : (process_frame st cs).1 = none := by
      unfold process_frame at h ⊢
      rcases hsel : selectContour cs with _ | c'
      · rfl
      · rw [hsel] at h
        by_cases hm : c'.m00 = 0
        · simp [hm]
        · simp [hm] at h
    rw [process_frame_notfound this]

theorem gesture_no_cross_frame_memory_witness :
    (process_frame { prev_positions := [], current_gesture := .unknown }
        [cA]).2.2.current_gesture =
      (process_frame { prev_positions := [(7, 7)], current_gesture := .victory }
        [cA]).2.2.current_gesture := by
  exact (gesture_no_cross_frame_memory _ _ [cA] [cA] cA (by decide) (by decide)).1

/-- C10: a frame whose processing yields `NotFound` (no qualifying contour,
or a degenerate zeroth moment) leaves the centroid-smoothing history — and
in fact the whole detector state — completely unchanged. -/
theorem notfound_preserves_history (st : DetState) (cs : List Contour)
    (h : (process_frame st cs).1 = none) :
    (process_frame st cs).2.2.prev_positions = st.prev_positions ∧
    (process_frame st cs).2.2 = st := by
  have := process_frame_notfound h
  exact ⟨by rw [this], this⟩

theorem notfound_preserves_history_witness :
    (process_frame { prev_positions := [(3, 4)], current_gesture := .pointing }
      (([] : List Contour))).2.2.prev_positions = [(3, 4)] := by
  exact (notfound_preserves_history
    { prev_positions := [(3, 4)], current_gesture := .pointing } [] (by decide)).1

/-- Python's integer floor division `a // n` by a positive count is the floor
of the exact rational quotient. -/
theorem fdiv_natCast_eq_floor (a : ℤ) (n : ℕ) :
    a.fdiv n = ⌊(a : ℚ) / (n : ℚ)⌋ := by
  rw [Int.fdiv_eq_ediv _ (by exact_mod_cast Nat.zero_le n)]
  exact (Rat.floor_intCast_div_natCast a n).symm

theorem pushHistory_ne_nil (hist : List Point) (p : Point) :
    pushHistory hist p ≠ [] := by
  apply List.length_pos.mp
  unfold pushHistory
  split
  · rename_i hgt
    have h1 : (List.drop 1 (hist ++ [p])).length = (hist ++ [p]).length - 1 :=
      List.length_drop 1 _
    have h2 : (hist ++ [p]).length = hist.length + 1 := by simp
    have h3 : max_positions = 5 := rfl
    omega
  · simp

theorem pushHistory_length_le (hist : List Point) (p : Point)
    (h : hist.length ≤ max_positions) :
    (pushHistory hist p).length ≤ max_positions := by
  unfold pushHistory
  split
  · simp; omega
  · rename_i hc
    simp at hc ⊢
    omega

theorem pushHistory_eq (hist : List Point) (p : Point)
    (h : hist.length ≤ max_positions) :
    pushHistory hist p =
      if hist.length = max_positions then hist.drop 1 ++ [p] else hist ++ [p] := by
  unfold pushHistory
  by_cases hfull : hist.length = max_positions
  · have hgt : max_positions < (hist ++ [p]).length := by simp [hfull]
    rw [if_pos hgt, if_pos hfull]
    exact List.drop_append_of_le_length (by rw [hfull]; decide)
  · have hlt : hist.length < max_positions := lt_of_le_of_ne h hfull
    have hngt : ¬ max_positions < (hist ++ [p]).length := by simp; omega
    rw [if_neg hngt, if_neg hfull]

/-- `pyInt` of an integer-valued rational is that integer. -/
theorem pyInt_ofInt (z : ℤ) : pyInt ((z : ℤ) : ℚ) = z := by
  unfold pyInt
  rw [Rat.num_intCast, Rat.den_intCast]
  exact Int.tdiv_one z

theorem smoothCenter_floor (hist : List Point) :
    (smoothCenter hist).1 = ⌊(((hist.map Prod.fst).sum : ℚ)) / (hist.length : ℚ)⌋ ∧
    (smoothCenter hist).2 = ⌊(((hist.map Prod.snd).sum : ℚ)) / (hist.length : ℚ)⌋ :=
  ⟨fdiv_natCast_eq_floor _ _, fdiv_natCast_eq_floor _ _⟩

theorem process_frame_some_eq {st : DetState} {cs : List Contour} {c : Contour}
    (hsel : selectContour cs = some c) (hm : c.m00 ≠ 0) :
    process_frame st cs =
      (some (smoothCenter (pushHistory st.prev_positions (rawCentroid c))),
        some c,
        { prev_positions := pushHistory st.prev_positions (rawCentroid c),
          current_gesture := detect_gesture c }) := by
  unfold process_frame
  rw [hsel]
  simp [hm]

theorem process_frame_center_some {st : DetState} {cs : List Contour} {ctr : Point}
    (h : (process_frame st cs).1 = some ctr) :
    ∃ c, selectContour cs = some c ∧ c.m00 ≠ 0 := by
  unfold process_frame at h
  rcases hsel : selectContour cs with _ | c
  · rw [hsel] at h; simp at h
  · rw [hsel] at h
    by_cases hm : c.m00 = 0
    · simp [hm] at h
    · exact ⟨c, rfl, hm⟩

/-- C6 (amended): the centroid-smoothing history is a bounded FIFO of
capacity `max_positions = 5` (append the newest raw centroid, evict the
oldest when full), and the centre reported for a valid detection is the
componentwise floor of the arithmetic mean of the entries currently in the
history (Python `//` floor division), averaged over however many entries are
present. -/
theorem smoothing_fifo_floor_mean (st : DetState) (cs : List Contour) (ctr : Point)
    (h : (process_frame st cs).1 = some ctr)
    (hlen : st.prev_positions.length ≤ max_positions) :
    (process_frame st cs).2.2.prev_positions.length ≤ max_positions ∧
    (process_frame st cs).2.2.prev_positions ≠ [] ∧
    (∃ raw : Point,
      (process_frame st cs).2.2.prev_positions =
        if st.prev_positions.length = max_positions
        then st.prev_positions.drop 1 ++ [raw]
        else st.prev_positions ++ [raw]) ∧
    ctr.1 = ⌊((((process_frame st cs).2.2.prev_positions.map Prod.fst).sum : ℚ)) /
      ((process_frame st cs).2.2.prev_positions.length : ℚ)⌋ ∧
    ctr.2 = ⌊((((process_frame st cs).2.2.prev_positions.map Prod.snd).sum : ℚ)) /
      ((process_frame st cs).2.2.prev_positions.length : ℚ)⌋ := by
  obtain ⟨c, hsel, hm⟩ := process_frame_center_some h
  rw [process_frame_some_eq hsel hm] at h ⊢
  have hctr : smoothCenter (pushHistory st.prev_positions (rawCentroid c)) = ctr := by
    simpa using h
  refine ⟨pushHistory_length_le _ _ hlen, pushHistory_ne_nil _ _,
    ⟨rawCentroid c, pushHistory_eq _ _ hlen⟩, ?_, ?_⟩
  · rw [← hctr]
    exact (smoothCenter_floor _).1
  · rw [← hctr]
    exact (smoothCenter_floor _).2

/-- A second synthetic contour whose raw centroid is `(1, 1)`. -/
def cB : Contour :=
  { points := [], area := 4000, m00 := 4000, m10 := 4000, m01 := 4000,
    hullSize := 0, defects := .noDefects, hullArea := 1 }

theorem rawCentroid_cA : rawCentroid cA = ((0 : ℤ), (0 : ℤ)) := by
  unfold rawCentroid
  have h1 : cA.m10 / cA.m00 = ((0 : ℤ) : ℚ) := by norm_num [cA]
  have h2 : cA.m01 / cA.m00 = ((0 : ℤ) : ℚ) := by norm_num [cA]
  rw [h1, h2, pyInt_ofInt]

theorem rawCentroid_cB : rawCentroid cB = ((1 : ℤ), (1 : ℤ)) := by
  unfold rawCentroid
  have h1 : cB.m10 / cB.m00 = ((1 : ℤ) : ℚ) := by norm_num [cB]
  have h2 : cB.m01 / cB.m00 = ((1 : ℤ) : ℚ) := by norm_num [cB]
  rw [h1, h2, pyInt_ofInt]

theorem process_frame_cA_eval :
    process_frame { prev_positions := [], current_gesture := .unknown } [cA] =
      (some ((0 : ℤ), (0 : ℤ)), some cA,
        { prev_positions := [((0 : ℤ), (0 : ℤ))],
          current_gesture := Gesture.unknown }) := by
  rw [process_frame_some_eq (by decide : selectContour [cA] = some cA)
    (by decide : cA.m00 ≠ 0), rawCentroid_cA]
  decide

theorem process_frame_cB_eval :
    process_frame { prev_positions := [((0 : ℤ), (0 : ℤ))], current_gesture := Gesture.unknown } [cB] =
      (some ((0 : ℤ), (0 : ℤ)), some cB,
        { prev_positions := [((0 : ℤ), (0 : ℤ)), (1, 1)],
          current_gesture := Gesture.unknown }) := by
  rw [process_frame_some_eq (by decide : selectContour [cB] = some cB)
    (by decide : cB.m00 ≠ 0), rawCentroid_cB]
  decide

/-- C6 counterexample: after two valid detections with raw centroids `(0,0)`
and `(1,1)` the history is `[(0,0), (1,1)]` and the reported centre is
`(0,0)`, but the arithmetic mean of the history entries has x-coordinate
`1/2`, so the reported centre is not the arithmetic mean. -/
theorem smoothed_center_not_arithmetic_mean :
    (process_frame (process_frame
        { prev_positions := [], current_gesture := .unknown } [cA]).2.2 [cB]).1 =
      some (0, 0) ∧
    (process_frame (process_frame
        { prev_positions := [], current_gesture := .unknown } [cA]).2.2 [cB]).2.2.prev_positions =
      [(0, 0), (1, 1)] ∧
    ((([((0 : ℤ), (0 : ℤ)), (1, 1)].map Prod.fst).sum : ℚ) /
        (([((0 : ℤ), (0 : ℤ)), (1, 1)] : List Point).length : ℚ) = 1 / 2) ∧
    (0 : ℚ) ≠ 1 / 2 := by
  have e12 : process_frame (process_frame
      { prev_positions := [], current_gesture := .unknown } [cA]).2.2 [cB] =
      (some ((0 : ℤ), (0 : ℤ)), some cB,
        { prev_positions := [((0 : ℤ), (0 : ℤ)), (1, 1)],
          current_gesture := Gesture.unknown }) := by
    rw [process_frame_cA_eval]
    exact process_frame_cB_eval
  refine ⟨by rw [e12], by rw [e12], ?_, by norm_num⟩
  norm_num [List.map_cons, List.sum_cons]

/-- Witness for `smoothing_fifo_floor_mean` at a first valid detection from
an empty history. -/
theorem smoothing_fifo_floor_mean_witness :
    (process_frame { prev_positions := [], current_gesture := .unknown }
        [cA]).2.2.prev_positions.length ≤ max_positions ∧
    (process_frame { prev_positions := [], current_gesture := .unknown }
        [cA]).2.2.prev_positions ≠ [] := by
  have h := smoothing_fifo_floor_mean
    { prev_positions := [], current_gesture := .unknown } [cA] ((0 : ℤ), (0 : ℤ))
    (by rw [process_frame_cA_eval]) (by decide)
  exact ⟨h.1, h.2.1⟩

/-- numpy's `argmin` over a key: the first element attaining the minimal key
(used for `contour[contour[:, :, k].argmin()][0]`). -/
def firstMinBy (key : Point → ℤ) : List Point → Point
  | [] => (0, 0)
  | x :: xs => xs.foldl (fun best p => if key p < key best then p else best) x

/-- numpy's `argmax` over a key: the first element attaining the maximal
key. -/
def firstMaxBy (key : Point → ℤ) : List Point → Point
  | [] => (0, 0)
  | x :: xs => xs.foldl (fun best p => if key best < key p then p else best) x

/-- `extreme_top = tuple(contour[contour[:, :, 1].argmin()][0])`
(`finger_pointer_game.py` line 244). -/
def extreme_top (c : List Point) : Point := firstMinBy Prod.snd c

/-- `extreme_bottom = tuple(contour[contour[:, :, 1].argmax()][0])`. -/
def extreme_bottom (c : List Point) : Point := firstMaxBy Prod.snd c

/-- `extreme_left = tuple(contour[contour[:, :, 0].argmin()][0])`. -/
def extreme_left (c : List Point) : Point := firstMinBy Prod.fst c

/-- `extreme_right = tuple(contour[contour[:, :, 0].argmax()][0])`. -/
def extreme_right (c : List Point) : Point := firstMaxBy Prod.fst c

/-- The fallback candidate list of `process_hand_tracking`
(`finger_pointer_game.py` lines 309-315):
`finger_points = [extreme_top, extreme_right, extreme_left]` — three
points, the bottommost extreme is not included. -/
def fallback_candidates (contour : List Point) : List Point :=
  [extreme_top contour, extreme_right contour, extreme_left contour]

/-- The claim-side candidate list, written from the spec's words: the four
extreme contour points topmost, bottommost, leftmost, rightmost. -/
def spec_four_extremes (contour : List Point) : List Point :=
  [extreme_top contour, extreme_bottom contour, extreme_left contour,
    extreme_right contour]

/-- One step of the fingertip-selection loop (`finger_pointer_game.py` lines
317-328): the running best is replaced only on strictly larger distance;
distances are tracked squared, which the monotonicity of `sqrt` makes
equivalent to the source's comparison of Euclidean distances (both start
from `max_dist = 0 = sqrt 0`). -/
def ftStep (center : Point) (acc : Option Point × ℤ) (p : Point) :
    Option Point × ℤ :=
  if acc.2 < sqDist p center then (some p, sqDist p center) else acc

/-- The fingertip-selection loop: `fingertip = None; max_dist = 0; for point
in finger_points: ...`. -/
def select_fingertip (cands : List Point) (center : Point) : Option Point :=
  (cands.foldl (ftStep center) (none, 0)).1

/-- The tail of Strategy A (`finger_pointer_game.py` lines 308-328), with the
defect loop's accumulated `finger_points` as input: if it is empty, the
extreme-point fallback list replaces it, and the fingertip is selected from
the candidates. -/
def strategyA_select (finger_points contour : List Point) (center : Point) :
    Option Point :=
  select_fingertip
    (if finger_points.isEmpty then fallback_candidates contour else finger_points)
    center

theorem ft_loop (center : Point) :
    ∀ (l : List Point) (b : Option Point) (m : ℤ),
      0 ≤ m → (∀ p, b = some p → m = sqDist p center) →
      0 ≤ (l.foldl (ftStep center) (b, m)).2 ∧
      (∀ p, (l.foldl (ftStep center) (b, m)).1 = some p →
        (l.foldl (ftStep center) (b, m)).2 = sqDist p center ∧
          (p ∈ l ∨ b = some p)) ∧
      (∀ q ∈ l, sqDist q center ≤ (l.foldl (ftStep center) (b, m)).2) ∧
      m ≤ (l.foldl (ftStep center) (b, m)).2 ∧
      ((l.foldl (ftStep center) (b, m)).1 = none →
        b = none ∧ (l.foldl (ftStep center) (b, m)).2 = m) := by
  intro l
  induction l with
  | nil =>
    intro b m hm hb
    refine ⟨hm, ?_, ?_, le_refl m, fun _ => ⟨?_, rfl⟩⟩
    · intro p hp
      exact ⟨hb p hp, Or.inr hp⟩
    · intro q hq; simp at hq
    · rename_i hnone
      cases b with
      | none => rfl
      | some p => simp at hnone
  | cons x xs ih =>
    intro b m hm hb
    have hstep : (x :: xs).foldl (ftStep center) (b, m) =
        xs.foldl (ftStep center) (ftStep center (b, m) x) := rfl
    rw [hstep]
    by_cases hx : m < sqDist x center
    · have hacc : ftStep center (b, m) x = (some x, sqDist x center) := by
        unfold ftStep; rw [if_pos hx]
      rw [hacc]
      have h := ih (some x) (sqDist x center) (sqDist_nonneg x center)
        (fun p hp => by injection hp with hp; rw [hp])
      refine ⟨h.1, ?_, ?_, ?_, ?_⟩
      · intro p hp
        rcases h.2.1 p hp with ⟨heq, hmem | hbx⟩
        · exact ⟨heq, Or.inl (List.mem_cons_of_mem _ hmem)⟩
        · injection hbx with hbx
          exact ⟨heq, Or.inl (hbx ▸ List.mem_cons_self _ _)⟩
      · intro q hq
        rcases List.mem_cons.mp hq with rfl | hq'
        · exact h.2.2.2.1
        · exact h.2.2.1 q hq'
      · exact le_trans (le_of_lt hx) h.2.2.2.1
      · intro hnone
        rcases h.2.2.2.2 hnone with ⟨hcon, -⟩
        simp at hcon
    · have hacc : ftStep center (b, m) x = (b, m) := by
        unfold ftStep; rw [if_neg hx]
      rw [hacc]
      have h := ih b m hm hb
      refine ⟨h.1, ?_, ?_, h.2.2.2.1, h.2.2.2.2⟩
      · intro p hp
        rcases h.2.1 p hp with ⟨heq, hmem | hbp⟩
        · exact ⟨heq, Or.inl (List.mem_cons_of_mem _ hmem)⟩
        · exact ⟨heq, Or.inr hbp⟩
      · intro q hq
        rcases List.mem_cons.mp hq with rfl | hq'
        · exact le_trans (not_lt.mp hx) h.2.2.2.1
        · exact h.2.2.1 q hq'

theorem select_fingertip_spec (cands : List Point) (center : Point) :
    (∀ p, select_fingertip cands center = some p →
      p ∈ cands ∧ ∀ q ∈ cands, sqDist q center ≤ sqDist p center) ∧
    ((∃ q ∈ cands, 0 < sqDist q center) →
      select_fingertip cands center ≠ none) := by
  have h := ft_loop center cands none 0 (le_refl 0) (fun p hp => by simp at hp)
  constructor
  · intro p hp
    have h2 := h.2.1 p hp
    rcases h2.2 with hmem | hbad
    · refine ⟨hmem, ?_⟩
      intro q hq
      have := h.2.2.1 q hq
      rw [h2.1] at this
      exact this
    · simp at hbad
  · rintro ⟨q, hq, hqpos⟩ hnone
    have hz := (h.2.2.2.2 hnone).2
    have hle := h.2.2.1 q hq
    rw [hz] at hle
    exact absurd hqpos (not_lt.mpr hle)

/-- C2 (amended): whenever the defect loop of Strategy A produced no finger
points, the fingertip-candidate set becomes exactly the three extreme
contour points topmost, rightmost, leftmost (the bottommost extreme is not a
candidate), and the fingertip returned is a candidate of maximum Euclidean
distance from the hand centre (`None` only when every candidate coincides
with the centre). -/
theorem strategyA_fallback_spec (finger_points contour : List Point)
    (center : Point) (hempty : finger_points = []) :
    (if finger_points.isEmpty then fallback_candidates contour
      else finger_points) =
      [extreme_top contour, extreme_right contour, extreme_left contour] ∧
    (∀ p, strategyA_select finger_points contour center = some p →
      p ∈ fallback_candidates contour ∧
      (∀ q ∈ fallback_candidates contour,
        sqDist q center ≤ sqDist p center) ∧
      (∀ q ∈ fallback_candidates contour,
        Real.sqrt (sqDist q center) ≤ Real.sqrt (sqDist p center))) ∧
    ((∃ q ∈ fallback_candidates contour, 0 < sqDist q center) →
      strategyA_select finger_points contour center ≠ none) := by
  subst hempty
  have hsel := select_fingertip_spec (fallback_candidates contour) center
  refine ⟨rfl, ?_, hsel.2⟩
  intro p hp
  rcases hsel.1 p hp with ⟨hmem, hmax⟩
  refine ⟨hmem, hmax, ?_⟩
  intro q hq
  exact Real.sqrt_le_sqrt (by exact_mod_cast hmax q hq)

/-- C2 counterexample: for the contour `[(5,0),(0,5),(10,5),(5,20)]` with
hand centre `(5,5)` and an empty finger-point list, the code's fallback
candidate list has three members — the bottommost extreme `(5,20)` is
missing — so it differs from the four-extreme set the claim describes, and
the selected fingertip `(5,0)` differs from the maximum-distance candidate
`(5,20)` among the four extremes. -/
theorem fallback_three_extremes_counterexample :
    fallback_candidates [(5, 0), (0, 5), (10, 5), (5, 20)] =
      [((5 : ℤ), (0 : ℤ)), (10, 5), (0, 5)] ∧
    spec_four_extremes [(5, 0), (0, 5), (10, 5), (5, 20)] =
      [((5 : ℤ), (0 : ℤ)), (5, 20), (0, 5), (10, 5)] ∧
    fallback_candidates [(5, 0), (0, 5), (10, 5), (5, 20)] ≠
      spec_four_extremes [(5, 0), (0, 5), (10, 5), (5, 20)] ∧
    strategyA_select [] [(5, 0), (0, 5), (10, 5), (5, 20)] (5, 5) =
      some (5, 0) ∧
    select_fingertip (spec_four_extremes [(5, 0), (0, 5), (10, 5), (5, 20)])
      (5, 5) = some (5, 20) := by
  decide

/-- Witness for `strategyA_fallback_spec` at the concrete contour of the
counterexample. -/
theorem strategyA_fallback_spec_witness :
    strategyA_select [] [((5 : ℤ), (0 : ℤ)), (0, 5), (10, 5), (5, 20)]
      (5, 5) ≠ none := by
  exact (strategyA_fallback_spec [] [(5, 0), (0, 5), (10, 5), (5, 20)]
    (5, 5) rfl).2.2 ⟨(5, 0), by decide, by decide⟩

/-- The rotated-rectangle angle adjustment of Strategy B
(`finger_pointer_game.py` lines 387-392, identically
`hand_orientation_detector.py` lines 123-127): add 90° exactly when the
rectangle's width is less than its height. -/
def adjust_rect_angle (angle w h : ℚ) : ℚ :=
  if w < h then angle + 90 else angle

/-- C8: Strategy B takes the minimum-area rectangle's rotation angle, adds
90° exactly when the rectangle's width is less than its height, and returns
`direction = (cos(angle), sin(angle))` with the angle converted to radians
(`math.radians(angle) = angle·π/180`) — a vector of unit length. -/
theorem strategyB_direction_spec (angle w h : ℚ) :
    Real.cos (((adjust_rect_angle angle w h : ℚ) : ℝ) * Real.pi / 180) ^ 2 +
      Real.sin (((adjust_rect_angle angle w h : ℚ) : ℝ) * Real.pi / 180) ^ 2 = 1 ∧
    (adjust_rect_angle angle w h = angle + 90 ↔ w < h) ∧
    (adjust_rect_angle angle w h = angle ↔ ¬ w < h) := by
  refine ⟨Real.cos_sq_add_sin_sq _, ?_, ?_⟩
  · unfold adjust_rect_angle
    by_cases hwh : w < h
    · rw [if_pos hwh]
      exact iff_of_true rfl hwh
    · rw [if_neg hwh]
      constructor
      · intro hcon
        linarith
      · intro hwh'
        exact absurd hwh' hwh
  · unfold adjust_rect_angle
    by_cases hwh : w < h
    · rw [if_pos hwh]
      constructor
      · intro hcon
        intro _
        linarith
      · intro hn
        exact absurd hwh hn
    · rw [if_neg hwh]
      exact iff_of_true rfl hwh

/-- Compass labels of `HandOrientationDetector` (plus its initial
`"unknown"`). -/
inductive Direction where
  | RIGHT
  | DOWN
  | LEFT
  | UP
  | unknown
deriving DecidableEq, Repr

/-- The mutable state of `HandOrientationDetector`:
`self.prev_orientations`, `self.current_angle`, `self.current_direction`. -/
structure OrientState where
  prev_orientations : List ℚ
  current_angle : ℚ
  current_direction : Direction
deriving DecidableEq

/-- `self.max_orientations = 5` (`hand_orientation_detector.py` line 17). -/
def max_orientations : ℕ := 5

/-- `HandOrientationDetector.update_direction`
(`hand_orientation_detector.py` lines 165-176). -/
def update_direction (angle : ℚ) : Direction :=
  if 315 < angle ∨ angle < 45 then .RIGHT
  else if 45 ≤ angle ∧ angle < 135 then .DOWN
  else if 135 ≤ angle ∧ angle < 225 then .LEFT
  else .UP

/-- `self.prev_orientations.append(angle)` with eviction `pop(0)` when the
length exceeds `max_orientations` (`hand_orientation_detector.py` lines
134-136). -/
def pushOrientation (hist : List ℚ) (a : ℚ) : List ℚ :=
  if max_orientations < (hist ++ [a]).length then (hist ++ [a]).drop 1
  else hist ++ [a]

/-- The angle bookkeeping of
`HandOrientationDetector.calculate_orientation`
(`hand_orientation_detector.py` lines 113-157) on the outputs of
`cv2.minAreaRect`: adjust the rectangle angle by 90° when width < height,
normalise a negative angle into `[0, 360)`, push it into the bounded
history, average the history (exact division), and derive the compass
label from the averaged angle. -/
def calculate_orientation (st : OrientState) (rectAngle rectW rectH : ℚ) :
    OrientState :=
  let angle := adjust_rect_angle rectAngle rectW rectH
  let angle := if angle < 0 then angle + 360 else angle
  let hist := pushOrientation st.prev_orientations angle
  let avg := hist.sum / (hist.length : ℚ)
  { prev_orientations := hist, current_angle := avg,
    current_direction := update_direction avg }

/-- The claim-side compass mapping, written from the spec's words: RIGHT for
averaged angles in (−45°, 45°] (modulo 360, so also above 315°), DOWN for
(45°, 135°], LEFT for (135°, 225°], UP otherwise. -/
def spec_compass (angle : ℚ) : Direction :=
  if (-45 < angle ∧ angle ≤ 45) ∨ 315 < angle then .RIGHT
  else if 45 < angle ∧ angle ≤ 135 then .DOWN
  else if 135 < angle ∧ angle ≤ 225 then .LEFT
  else .UP

theorem update_direction_RIGHT (q : ℚ) :
    update_direction q = .RIGHT ↔ (q < 45 ∨ 315 < q) := by
  unfold update_direction
  split_ifs with h1 h2 h3
  · exact iff_of_true rfl h1.symm
  · apply iff_of_false (by decide)
    push_neg at h1
    rintro (hc | hc)
    · linarith [h2.1]
    · linarith [h1.1]
  · apply iff_of_false (by decide)
    push_neg at h1
    rintro (hc | hc)
    · linarith [h3.1]
    · linarith [h1.1]
  · apply iff_of_false (by decide)
    push_neg at h1
    rintro (hc | hc)
    · linarith [h1.2]
    · linarith [h1.1]

theorem update_direction_DOWN (q : ℚ) :
    update_direction q = .DOWN ↔ (45 ≤ q ∧ q < 135) := by
  unfold update_direction
  split_ifs with h1 h2 h3
  · apply iff_of_false (by decide)
    rintro ⟨hq1, hq2⟩
    rcases h1 with h | h <;> linarith
  · exact iff_of_true rfl h2
  · apply iff_of_false (by decide)
    rintro ⟨-, hq⟩
    linarith [h3.1]
  · exact iff_of_false (by decide) h2


theorem update_direction_LEFT (q : ℚ) :
    update_direction q = .LEFT ↔ (135 ≤ q ∧ q < 225) := by
  unfold update_direction
  split_ifs with h1 h2 h3
  · apply iff_of_false (by decide)
    rintro ⟨hq1, hq2⟩
    rcases h1 with h | h <;> linarith
  · apply iff_of_false (by decide)
    rintro ⟨hq, -⟩
    linarith [h2.2]
  · exact iff_of_true rfl h3
  · exact iff_of_false (by decide) h3

theorem update_direction_UP (q : ℚ) :
    update_direction q = .UP ↔ (225 ≤ q ∧ q ≤ 315) := by
  unfold update_direction
  split_ifs with h1 h2 h3
  · apply iff_of_false (by decide)
    rintro ⟨hq1, hq2⟩
    rcases h1 with h | h <;> linarith
  · apply iff_of_false (by decide)
    rintro ⟨hq, -⟩
    linarith [h2.2]
  · apply iff_of_false (by decide)
    rintro ⟨hq, -⟩
    linarith [h3.2]
  · apply iff_of_true rfl
    push_neg at h1 h2 h3
    have h45 : 45 ≤ q := h1.2
    exact ⟨h3 (h2 h45), h1.1⟩

theorem pushOrientation_length_le (hist : List ℚ) (a : ℚ)
    (h : hist.length ≤ max_orientations) :
    (pushOrientation hist a).length ≤ max_orientations := by
  unfold pushOrientation
  split
  · simp; omega
  · rename_i hc
    simp at hc ⊢
    omega

/-- C7 (amended): the orientation-only detector smooths the angle over a
bounded history of at most 5 frames (exact average over however many entries
are present), and maps the averaged angle to a compass label by
closed-left/open-right sectors: RIGHT exactly when the angle is below 45° or
above 315°, DOWN exactly on [45°, 135°), LEFT exactly on [135°, 225°), and
UP exactly on [225°, 315°]. -/
theorem orientation_compass_spec (st : OrientState) (a w h : ℚ)
    (hlen : st.prev_orientations.length ≤ max_orientations) :
    (calculate_orientation st a w h).prev_orientations.length ≤
      max_orientations ∧
    (calculate_orientation st a w h).current_angle =
      (calculate_orientation st a w h).prev_orientations.sum /
        ((calculate_orientation st a w h).prev_orientations.length : ℚ) ∧
    (calculate_orientation st a w h).current_direction =
      update_direction ((calculate_orientation st a w h).current_angle) ∧
    (∀ q : ℚ,
      (update_direction q = .RIGHT ↔ (q < 45 ∨ 315 < q)) ∧
      (update_direction q = .DOWN ↔ (45 ≤ q ∧ q < 135)) ∧
      (update_direction q = .LEFT ↔ (135 ≤ q ∧ q < 225)) ∧
      (update_direction q = .UP ↔ (225 ≤ q ∧ q ≤ 315))) := by
  refine ⟨pushOrientation_length_le _ _ hlen, rfl, rfl, ?_⟩
  intro q
  exact ⟨update_direction_RIGHT q, update_direction_DOWN q,
    update_direction_LEFT q, update_direction_UP q⟩

/-- C7 counterexample: with an empty history and a rectangle angle of
exactly 45° (width = height, no adjustment), the averaged angle is 45°; the
code labels it DOWN, while the claim's interval (−45°, 45°] puts 45° in
RIGHT. -/
theorem compass_boundary_counterexample :
    (calculate_orientation ⟨[], 0, .unknown⟩ 45 1 1).current_angle = 45 ∧
    (calculate_orientation ⟨[], 0, .unknown⟩ 45 1 1).current_direction =
      Direction.DOWN ∧
    spec_compass 45 = Direction.RIGHT ∧
    Direction.DOWN ≠ Direction.RIGHT := by
  have hangle : calculate_orientation ⟨[], 0, .unknown⟩ 45 1 1 =
      ⟨[45], 45, Direction.DOWN⟩ := by
    unfold calculate_orientation adjust_rect_angle pushOrientation
      update_direction max_orientations
    norm_num
  refine ⟨by rw [hangle], by rw [hangle], by decide, by decide⟩

/-- Witness for `orientation_compass_spec` from the empty history. -/
theorem orientation_compass_spec_witness :
    (calculate_orientation ⟨[], 0, .unknown⟩ 45 1 1).prev_orientations.length ≤
      max_orientations ∧
    (update_direction 50 = Direction.DOWN ↔ ((45 : ℚ) ≤ 50 ∧ (50 : ℚ) < 135)) := by
  have h := orientation_compass_spec ⟨[], 0, .unknown⟩ 45 1 1 (by decide)
  exact ⟨h.1, (h.2.2.2 50).2.1⟩


/-- The OpenCV primitives used by the mask pipeline of
`SimpleHandDetector.process_frame` (`simple_detection.py` lines 50-94),
abstracted over frame, mask and background-model types: `bg_subtractor.apply`
(which both updates the model and returns the foreground mask),
`cv2.morphologyEx` with `MORPH_OPEN` (3×3 kernel) and `MORPH_CLOSE` (5×5
kernel), the confident-foreground binarisation
`cv2.threshold(·, 200, 255, THRESH_BINARY)`, the HSV skin-colour
`cv2.inRange`, and `cv2.bitwise_and`. -/
structure CVOps (F M B : Type) where
  bgApply : B → F → B × M
  morphOpen3 : M → M
  morphClose5 : M → M
  thresholdBin200 : M → M
  skinInRange : F → M
  bitwiseAnd : M → M → M

/-- The background-subtraction state of `SimpleHandDetector`:
`self.bg_subtractor`, `self.frame_count`, `self.has_bg_model`. -/
structure BgState (B : Type) where
  bg : B
  frame_count : ℕ
  has_bg_model : Bool

/-- `self.frames_to_learn = 30` (`simple_detection.py` line 31). -/
def frames_to_learn : ℕ := 30

/-- The learning-phase branch (`simple_detection.py` lines 51-57): while
`frame_count < frames_to_learn`, apply the model (discarding its mask),
increment the counter, and flip `has_bg_model` on when the counter reaches
`frames_to_learn`. -/
def learn_update {F M B : Type} (ops : CVOps F M B) (st : BgState B)
    (frame : F) : BgState B :=
  if st.frame_count < frames_to_learn then
    { bg := (ops.bgApply st.bg frame).1,
      frame_count := st.frame_count + 1,
      has_bg_model :=
        if st.frame_count + 1 = frames_to_learn then true
        else st.has_bg_model }
  else st

/-- The motion-mask branch (`simple_detection.py` lines 70-82): when the
model is ready, apply it again to get the foreground mask, clean it with one
morphological open and one close, and binarise it at the high-confidence
level; otherwise there is no motion mask. -/
def motion_mask {F M B : Type} (ops : CVOps F M B) (st : BgState B)
    (frame : F) : BgState B × Option M :=
  if st.has_bg_model then
    ({ st with bg := (ops.bgApply st.bg frame).1 },
      some (ops.thresholdBin200 (ops.morphClose5
        (ops.morphOpen3 (ops.bgApply st.bg frame).2))))
  else (st, none)

/-- The mask pipeline of `process_frame` up to the combined segmentation
mask (`simple_detection.py` lines 50-94): learning update, optional motion
mask, skin mask, and `cv2.bitwise_and(skin_mask, motion_mask)` when the
motion mask exists, the skin mask alone otherwise. -/
def segmentation_step {F M B : Type} (ops : CVOps F M B) (st : BgState B)
    (frame : F) : BgState B × M :=
  let st1 := learn_update ops st frame
  let sm := motion_mask ops st1 frame
  (sm.1,
    match sm.2 with
    | some m => ops.bitwiseAnd (ops.skinInRange frame) m
    | none => ops.skinInRange frame)

/-- C5: on every frame processed strictly inside the 30-frame learning
window the background model is updated and the combined segmentation mask is
exactly the skin-colour mask (the motion mask does not participate); from
the frame on which the window elapses onwards, the mask is the pixelwise AND
of the skin mask with a motion mask cleaned by one morphological open and
one close and binarised at the high-confidence level.  The invariant
hypothesis states that `has_bg_model` is set exactly when 30 frames have
been applied, which holds for every reachable state. -/
theorem segmentation_learning_window {F M B : Type} (ops : CVOps F M B)
    (st : BgState B) (frame : F)
    (hinv : st.has_bg_model = decide (frames_to_learn ≤ st.frame_count)) :
    (st.frame_count + 1 < frames_to_learn →
      (segmentation_step ops st frame).2 = ops.skinInRange frame ∧
      (segmentation_step ops st frame).1.bg = (ops.bgApply st.bg frame).1 ∧
      (segmentation_step ops st frame).1.frame_count = st.frame_count + 1 ∧
      (segmentation_step ops st frame).1.has_bg_model = false) ∧
    (frames_to_learn ≤ st.frame_count + 1 →
      ∃ mRaw : M, (segmentation_step ops st frame).2 =
        ops.bitwiseAnd (ops.skinInRange frame)
          (ops.thresholdBin200 (ops.morphClose5 (ops.morphOpen3 mRaw)))) := by
  constructor
  · intro hlt
    have hfc : st.frame_count < frames_to_learn := by omega
    have hne : ¬ (st.frame_count + 1 = frames_to_learn) := by omega
    have hfalse : st.has_bg_model = false := by
      rw [hinv]; simp; omega
    have hst1 : learn_update ops st frame =
        { bg := (ops.bgApply st.bg frame).1,
          frame_count := st.frame_count + 1, has_bg_model := false } := by
      unfold learn_update
      rw [if_pos hfc, if_neg hne, hfalse]
    unfold segmentation_step
    rw [hst1]
    unfold motion_mask
    simp
  · intro hge
    by_cases hfc : st.frame_count < frames_to_learn
    · have heq : st.frame_count + 1 = frames_to_learn := by omega
      have hst1 : learn_update ops st frame =
          { bg := (ops.bgApply st.bg frame).1,
            frame_count := st.frame_count + 1, has_bg_model := true } := by
        unfold learn_update
        rw [if_pos hfc, if_pos heq]
      refine ⟨(ops.bgApply (ops.bgApply st.bg frame).1 frame).2, ?_⟩
      unfold segmentation_step
      rw [hst1]
      unfold motion_mask
      simp
    · have htrue : st.has_bg_model = true := by
        rw [hinv]; simp; omega
      have hst1 : learn_update ops st frame = st := by
        unfold learn_update
        rw [if_neg hfc]
      refine ⟨(ops.bgApply st.bg frame).2, ?_⟩
      unfold segmentation_step
      rw [hst1]
      unfold motion_mask
      simp [htrue]

/-- A degenerate instantiation of the abstract OpenCV primitives, used to
exercise `segmentation_learning_window` on a concrete state. -/
def trivialOps : CVOps Unit Unit Unit :=
  { bgApply := fun _ _ => ((), ()), morphOpen3 := id, morphClose5 := id,
    thresholdBin200 := id, skinInRange := fun _ => (),
    bitwiseAnd := fun _ _ => () }

/-- Witness for `segmentation_learning_window` on the initial state (frame
count 0, no model). -/
theorem segmentation_learning_window_witness :
    (segmentation_step trivialOps ⟨(), 0, false⟩ ()).2 =
      trivialOps.skinInRange () ∧
    (segmentation_step trivialOps ⟨(), 0, false⟩ ()).1.frame_count = 1 ∧
    (segmentation_step trivialOps ⟨(), 0, false⟩ ()).1.has_bg_model = false := by
  have h := (segmentation_learning_window trivialOps ⟨(), 0, false⟩ ()
    (by decide)).1 (by decide)
  exact ⟨h.1, h.2.2.1, h.2.2.2⟩

end PyHandGame
